import Mathlib

/-!
Verification development for the double-entry ledger and reconciliation
engine of the `accounting` package (Go sources `part_012`, `part_013`).

The shallow embedding models:
* `shopspring/decimal` values as a coefficient/exponent pair `Dec`
  (value = `num * 10 ^ exp`), with `Add`, `Sub`, `Neg`, `IsZero`,
  `LessThanOrEqual`, `String()` printing and `NewFromString` parsing
  translated from that library as the Go code uses them;
* the Mongo-backed state as an explicit `LedgerState` (account list,
  journal list, a fresh-id counter standing in for ObjectID generation);
* store I/O failures as explicit boolean fault flags / fault oracles;
* the Mongo transaction (`runInTransaction` / `WithTransaction`) as a
  state transformer whose error outcome discards the candidate state
  (roll-back), returning the pre-call state unchanged.

Timestamps are not modelled; journal lists are kept in insertion order,
which coincides with `created_at` ascending order since each append
happens strictly later than the previous one.
-/

namespace GoLedger

deriving instance DecidableEq for Except

/-! ## Characters and digit strings

`big.Int.String`, `strconv.ParseInt` and `big.Int.SetString` work on
ASCII decimal digit strings; we model digit strings as `List Char`. -/

/-- ASCII decimal digit test (as used by integer parsing). -/
def isDigitChar (c : Char) : Bool :=
  47 < c.toNat && c.toNat < 58

/-- The ASCII character of a single decimal digit (digits are < 10). -/
def digitChar : Nat → Char
  | 0 => '0' | 1 => '1' | 2 => '2' | 3 => '3' | 4 => '4'
  | 5 => '5' | 6 => '6' | 7 => '7' | 8 => '8' | _ => '9'

/-- The natural number denoted by a most-significant-first digit string. -/
def denote (l : List Char) : Nat :=
  l.foldl (fun a c => 10 * a + (c.toNat - 48)) 0

/-- Digit characters of `n`, most significant first, fuelled so that the
recursion is structural (`n ≤ fuel` suffices); empty for `n = 0`. -/
def natCharsAux : Nat → Nat → List Char
  | 0, _ => []
  | fuel + 1, n =>
    if n = 0 then [] else natCharsAux fuel (n / 10) ++ [digitChar (n % 10)]

/-- Decimal digit string of a natural number (`"0"` for zero), as
produced by `big.Int.String` on the absolute value. -/
def natChars (n : Nat) : List Char :=
  if n = 0 then ['0'] else natCharsAux n n

/-- Signed decimal digit string of `i * 10 ^ shift`: the Go code prints
a nonnegative-exponent decimal via `d.rescale(0).value.String()`. -/
def intChars (i : Int) (shift : Nat) : List Char :=
  let m := i * (10 : Int) ^ shift
  (if m < 0 then ['-'] else []) ++ natChars m.natAbs

/-- Remove trailing `'0'` characters (the fractional-part trimming done
by `Decimal.String`). -/
def trimR (l : List Char) : List Char :=
  (l.reverse.dropWhile (fun c => c == '0')).reverse

/-- Split at the first `'e'`/`'E'` (scientific-notation marker), as
`strings.IndexAny(value, "Ee")` does: mantissa plus optional exponent
tail. -/
def splitExp : List Char → List Char × Option (List Char)
  | [] => ([], none)
  | c :: rest =>
    if c = 'e' ∨ c = 'E' then ([], some rest)
    else
      let p := splitExp rest
      (c :: p.1, p.2)

/-- Whether a `'.'` occurs in the list. -/
def hasDot (l : List Char) : Bool :=
  l.any (fun c => c == '.')

/-- Split a mantissa at its decimal point, mirroring `NewFromString`:
`none` on a second point or on a trailing point; otherwise the integer
part, the fractional part, and whether a point was present. -/
def splitDot : List Char → Option (List Char × List Char × Bool)
  | [] => some ([], [], false)
  | c :: rest =>
    if c = '.' then
      if hasDot rest then none
      else if rest.isEmpty then none
      else some ([], rest, true)
    else
      match splitDot rest with
      | none => none
      | some (ip, fp, b) => some (c :: ip, fp, b)

/-- Unsigned integer digit parsing: a nonempty all-digit string. -/
def parseNatChars (l : List Char) : Option Nat :=
  if l.isEmpty then none
  else if l.all isDigitChar then some (denote l) else none

/-- Signed integer parsing as done by `strconv.ParseInt` /
`big.Int.SetString` (base 10): optional single sign, then digits. -/
def parseIntChars (l : List Char) : Option Int :=
  match l with
  | [] => none
  | c :: rest =>
    if c = '+' then (parseNatChars rest).map (fun n => (n : Int))
    else if c = '-' then (parseNatChars rest).map (fun n => -(n : Int))
    else (parseNatChars (c :: rest)).map (fun n => (n : Int))

/-! ## The decimal type (`shopspring/decimal`)

A decimal is a big-integer coefficient and an integer exponent;
its value is `num * 10 ^ exp`.  (The library's `int32` exponent
bound is not modelled; no claim concerns overflow.) -/

/-- `decimal.Decimal`: value = `num * 10 ^ exp`. -/
structure Dec where
  num : Int
  exp : Int
deriving DecidableEq, Repr

/-- The rational value of a decimal. -/
def Dec.val (d : Dec) : ℚ :=
  (d.num : ℚ) * (10 : ℚ) ^ d.exp

/-- `decimal.Zero = New(0, 1)`. -/
def Dec.zero : Dec := ⟨0, 1⟩

/-- The zero value `Decimal{}` (e.g. `var computed decimal.Decimal`, or
the decimal returned alongside a `NewFromString` error). -/
def Dec.zeroVar : Dec := ⟨0, 0⟩

/-- `Decimal.Neg`. -/
def Dec.neg (d : Dec) : Dec := ⟨-d.num, d.exp⟩

/-- `Decimal.Add`: rescale both operands to the smaller exponent
(`RescalePair`), then add coefficients. -/
def Dec.add (a b : Dec) : Dec :=
  let e := min a.exp b.exp
  ⟨a.num * (10 : Int) ^ (a.exp - e).toNat + b.num * (10 : Int) ^ (b.exp - e).toNat, e⟩

/-- `Decimal.Sub`: rescale to the smaller exponent, subtract. -/
def Dec.sub (a b : Dec) : Dec :=
  let e := min a.exp b.exp
  ⟨a.num * (10 : Int) ^ (a.exp - e).toNat - b.num * (10 : Int) ^ (b.exp - e).toNat, e⟩

/-- `Decimal.IsZero`: the coefficient's sign is zero. -/
def Dec.isZero (d : Dec) : Bool :=
  d.num == 0

/-- `Decimal.LessThanOrEqual` (`Cmp <= 0`): compare coefficients after
rescaling to the common (smaller) exponent. -/
def Dec.le (a b : Dec) : Bool :=
  let e := min a.exp b.exp
  decide (a.num * (10 : Int) ^ (a.exp - e).toNat ≤ b.num * (10 : Int) ^ (b.exp - e).toNat)

/-- Character content of `Decimal.String()` (which trims trailing
fractional zeros): plain decimal notation, never scientific. -/
def decChars (d : Dec) : List Char :=
  if 0 ≤ d.exp then
    intChars d.num d.exp.toNat
  else
    let s := natChars d.num.natAbs
    let k := (-d.exp).toNat
    let ip := if k < s.length then s.take (s.length - k) else ['0']
    let fr := if k < s.length then s.drop (s.length - k)
              else List.replicate (k - s.length) '0' ++ s
    let fr2 := trimR fr
    let body := ip ++ (if fr2.isEmpty then [] else '.' :: fr2)
    if d.num < 0 then '-' :: body else body

/-- `Decimal.String()`. -/
def Dec.toString (d : Dec) : String :=
  ⟨decChars d⟩

/-- `decimal.NewFromString` on character content: optional
scientific-notation exponent, at most one decimal point (not
trailing), signed digit coefficient. -/
def parseDecChars (l : List Char) : Option Dec :=
  let p := splitExp l
  let expVal : Option Int :=
    match p.2 with
    | none => some 0
    | some echars => parseIntChars echars
  match expVal with
  | none => none
  | some e0 =>
    match splitDot p.1 with
    | none => none
    | some (ip, fp, _) =>
      match parseIntChars (ip ++ fp) with
      | none => none
      | some coeff => some ⟨coeff, e0 - (fp.length : Int)⟩

/-- `decimal.NewFromString`. -/
def newFromString (s : String) : Option Dec :=
  parseDecChars s.data

/-! ## Data model (`part_013`) -/

/-- `AccountType` constants. -/
inductive AccountType
  | UnderwriterPremiumPayable
  | AgentCommissionEarned
  | PaymentGateway
  | ClientInsurance
deriving DecidableEq, Repr

/-- `TransactionType` constants. -/
inductive TransactionType
  | TopUp
  | PremiumPayment
  | CommissionPayment
deriving DecidableEq, Repr

/-- `Account` (ObjectIDs modelled as `Nat`; `CreatedAt` not modelled —
no claim concerns wall-clock time). The balance is stored as a decimal
string. -/
structure Account where
  id : Nat
  type : AccountType
  balance : String
  name : String
deriving DecidableEq, Repr

/-- `Account.GetBalance`: `d, _ := decimal.NewFromString(a.Balance)` —
the parse error is discarded, leaving the zero-value decimal. -/
def Account.GetBalance (a : Account) : Dec :=
  (newFromString a.balance).getD Dec.zeroVar

/-- `Account.SetBalance`. -/
def Account.SetBalance (a : Account) (d : Dec) : Account :=
  { a with balance := d.toString }

/-- `JournalEntry` (`CreatedAt` not modelled; the journal list is kept
in insertion order, which is `created_at` ascending). -/
structure JournalEntry where
  id : Nat
  transactionId : Nat
  type : TransactionType
  amount : String
  tranRef : String
  debitAccount : Nat
  creditAccount : Nat
deriving DecidableEq, Repr

/-- `JournalEntry.GetAmount`: parse error discarded, zero-value
decimal on failure. -/
def JournalEntry.GetAmount (j : JournalEntry) : Dec :=
  (newFromString j.amount).getD Dec.zeroVar

/-- `ReconciliationStatus` constants. -/
inductive ReconciliationStatus
  | Reconciled
  | Discrepancy
  | NoTransactions
deriving DecidableEq, Repr

/-- `ReconciliationResult`. -/
structure ReconciliationResult where
  accountID : Nat
  accountType : AccountType
  storedBalance : Dec
  computedBalance : Dec
  discrepancy : Dec
  status : ReconciliationStatus
  journalCount : Nat
deriving DecidableEq, Repr

/-! ## Store state and errors (`AccountingService`, `part_012`)

The two Mongo collections become two lists; `nextId` stands in for
`primitive.NewObjectID()`.  Go errors are modelled by tags; store I/O
failures (which Mongo can raise on any read/write) are injected
through explicit fault parameters at the operations whose failure the
claims discuss. -/

/-- The persistent state backing `AccountingService`. -/
structure LedgerState where
  accounts : List Account
  journals : List JournalEntry
  nextId : Nat
deriving DecidableEq, Repr

/-- Error taxonomy of the modelled operations. -/
inductive LedgerError
  | invalidAmount
  | accountNotFound
  | storeFailure
deriving DecidableEq, Repr

/-- Injected store-I/O faults for one `postDoubleEntry` call: failure
of the debit-leg increment, of the credit-leg increment, and of the
journal `InsertOne`. -/
structure Faults where
  debitFail : Bool
  creditFail : Bool
  insertFail : Bool
deriving DecidableEq, Repr

/-- No injected faults. -/
def noFaults : Faults := ⟨false, false, false⟩

/-- `FindOne({_id: accountID})` on the accounts collection. -/
def findAccount (st : LedgerState) (aid : Nat) : Option Account :=
  st.accounts.find? (fun a => a.id == aid)

/-- `GetAccountByID`: wraps `ErrNoDocuments` into an account-not-found
error. -/
def GetAccountByID (st : LedgerState) (aid : Nat) : Except LedgerError Account :=
  match findAccount st aid with
  | none => .error .accountNotFound
  | some acc => .ok acc

/-- `UpdateOne({_id: aid}, {$set: {balance: s}})`: overwrite the
balance of the first account matching the id. -/
def setBalanceFirst : List Account → Nat → String → List Account
  | [], _, _ => []
  | a :: rest, aid, s =>
    if a.id = aid then { a with balance := s } :: rest
    else a :: setBalanceFirst rest aid s

/-- `incrementBalance`: read the account in-session, add `delta` to the
parsed balance, write the printed result back.  `fail` injects a store
I/O failure for this step. -/
def incrementBalance (fail : Bool) (st : LedgerState) (aid : Nat) (delta : Dec) :
    Except LedgerError LedgerState :=
  if fail then .error .storeFailure
  else
    match findAccount st aid with
    | none => .error .accountNotFound
    | some acc =>
      .ok { st with accounts := setBalanceFirst st.accounts aid ((acc.GetBalance.add delta).toString) }

/-- The closure passed by `postDoubleEntry` to `runInTransaction`:
debit-leg increment by `-amount`, credit-leg increment by `+amount`,
then `InsertOne` of the single journal entry. -/
def postTxnBody (f : Faults) (txType : TransactionType) (amount : Dec)
    (debitAccID creditAccID : Nat) (tranRef : String)
    (st : LedgerState) : Except LedgerError LedgerState := do
  let s1 ← incrementBalance f.debitFail st debitAccID amount.neg
  let s2 ← incrementBalance f.creditFail s1 creditAccID amount
  if f.insertFail then throw .storeFailure
  else
    pure { s2 with
      journals := s2.journals ++
        [{ id := s2.nextId, transactionId := 0, type := txType,
           amount := amount.toString, tranRef := tranRef,
           debitAccount := debitAccID, creditAccount := creditAccID }],
      nextId := s2.nextId + 1 }

/-- `runInTransaction` / `session.WithTransaction`: run the unit of
work; on success its writes commit, on any error the transaction is
aborted and no write becomes visible (the pre-call state stands). -/
def runInTransaction (st : LedgerState)
    (fn : LedgerState → Except LedgerError LedgerState) :
    LedgerState × Option LedgerError :=
  match fn st with
  | .ok st2 => (st2, none)
  | .error e => (st, some e)

/-- `postDoubleEntry`: reject non-positive amounts before opening the
transaction scope, then run the two increments and the journal append
atomically. -/
def postDoubleEntry (f : Faults) (st : LedgerState) (txType : TransactionType)
    (amount : Dec) (debitAccID creditAccID : Nat) (tranRef : String) :
    LedgerState × Option LedgerError :=
  if amount.le Dec.zero then (st, some .invalidAmount)
  else runInTransaction st (postTxnBody f txType amount debitAccID creditAccID tranRef)

/-- `ClientAccountTopUp`: Debit Gateway, Credit Client. -/
def ClientAccountTopUp (f : Faults) (st : LedgerState)
    (clientAccID gatewayAccID : Nat) (amount : Dec) (tranRef : String) :
    LedgerState × Option LedgerError :=
  postDoubleEntry f st .TopUp amount gatewayAccID clientAccID tranRef

/-- `ClientPremiumPayment`: Debit Client, Credit Underwriter. -/
def ClientPremiumPayment (f : Faults) (st : LedgerState)
    (clientAccID underwriterAccID : Nat) (amount : Dec) (tranRef : String) :
    LedgerState × Option LedgerError :=
  postDoubleEntry f st .PremiumPayment amount clientAccID underwriterAccID tranRef

/-- `PostAgentCommission`: Debit Underwriter, Credit Agent. -/
def PostAgentCommission (f : Faults) (st : LedgerState)
    (underwriterAccID agentAccID : Nat) (amount : Dec) (tranRef : String) :
    LedgerState × Option LedgerError :=
  postDoubleEntry f st .CommissionPayment amount underwriterAccID agentAccID tranRef

/-- `CreateAccount`: a fresh id, `SetBalance(initialBalance)`, insert.
(The insert's own I/O failure mode is not modelled: no claim concerns
it.) -/
def CreateAccount (st : LedgerState) (accType : AccountType)
    (initialBalance : Dec) (name : String) : Account × LedgerState :=
  let acc : Account :=
    { id := st.nextId, type := accType,
      balance := initialBalance.toString, name := name }
  (acc, { st with accounts := st.accounts ++ [acc], nextId := st.nextId + 1 })

/-- One step of the reconciliation replay loop: the code ADDS the
entry amount when the account is the debit leg and SUBTRACTS it when
the account is the credit leg (two independent `if`s). -/
def replayStep (aid : Nat) (c : Dec) (e : JournalEntry) : Dec :=
  let amt := e.GetAmount
  let c1 := if e.debitAccount = aid then c.add amt else c
  if e.creditAccount = aid then c1.sub amt else c1

/-- `ReconcileAccount`.  `journalReadFault` injects a store read error
for the journal scan of a given account (the `Find`/`cursor.All`
failure mode). -/
def ReconcileAccount (journalReadFault : Nat → Bool) (st : LedgerState) (aid : Nat) :
    Except LedgerError ReconciliationResult := do
  let acc ← GetAccountByID st aid
  if journalReadFault aid then throw .storeFailure
  else
    let entries := st.journals.filter
      (fun e => e.debitAccount == aid || e.creditAccount == aid)
    let computed := entries.foldl (replayStep aid) Dec.zeroVar
    let stored := acc.GetBalance
    let discrepancy := computed.sub stored
    let status : ReconciliationStatus :=
      if entries.length = 0 then .NoTransactions
      else if !discrepancy.isZero then .Discrepancy
      else .Reconciled
    pure { accountID := aid, accountType := acc.type,
           storedBalance := stored, computedBalance := computed,
           discrepancy := discrepancy, status := status,
           journalCount := entries.length }

/-- The loop of `GetReconciliationReport`: reconcile each account in
store order, returning the first error unchanged. -/
def reportLoop (journalReadFault : Nat → Bool) (st : LedgerState) :
    List Account → Except LedgerError (List ReconciliationResult)
  | [] => .ok []
  | a :: rest => do
    let r ← ReconcileAccount journalReadFault st a.id
    let rs ← reportLoop journalReadFault st rest
    pure (r :: rs)

/-- `GetReconciliationReport`: scan all accounts, reconcile each one,
fail the whole call on the first per-account failure. -/
def GetReconciliationReport (journalReadFault : Nat → Bool) (st : LedgerState) :
    Except LedgerError (List ReconciliationResult) :=
  reportLoop journalReadFault st st.accounts

/-! ## Digit-string lemmas -/

theorem digitChar_isDigit (d : Nat) : isDigitChar (digitChar d) = true := by
  unfold digitChar
  split <;> decide

theorem digitChar_val (d : Nat) (h : d < 10) : (digitChar d).toNat - 48 = d := by
  interval_cases d <;> rfl

theorem isDigitChar_ne {c c2 : Char} (h : isDigitChar c = true)
    (h2 : isDigitChar c2 = false) : c ≠ c2 := by
  intro he
  rw [he, h2] at h
  exact Bool.false_ne_true h

theorem denote_foldl (l : List Char) (x : Nat) :
    l.foldl (fun a c => 10 * a + (c.toNat - 48)) x = x * 10 ^ l.length + denote l := by
  induction l generalizing x with
  | nil => simp [denote]
  | cons c rest ih =>
    simp only [List.foldl_cons, List.length_cons, denote]
    rw [ih, ih (10 * 0 + (c.toNat - 48))]
    ring

theorem denote_append (a b : List Char) :
    denote (a ++ b) = denote a * 10 ^ b.length + denote b := by
  unfold denote
  rw [List.foldl_append, denote_foldl]
  rfl

theorem denote_nil : denote [] = 0 := rfl

theorem denote_singleton (c : Char) : denote [c] = c.toNat - 48 := by
  simp [denote]

theorem denote_cons_zero (l : List Char) : denote ('0' :: l) = denote l := by
  show List.foldl _ (10 * 0 + ('0'.toNat - 48)) l = List.foldl _ 0 l
  have h : 10 * 0 + ('0'.toNat - 48) = 0 := by decide
  rw [h]

theorem denote_replicate_zero (t : Nat) : denote (List.replicate t '0') = 0 := by
  induction t with
  | zero => rfl
  | succ n ih => rw [List.replicate_succ, denote_cons_zero, ih]

theorem natCharsAux_spec : ∀ fuel n, n ≤ fuel →
    denote (natCharsAux fuel n) = n ∧
      ∀ c ∈ natCharsAux fuel n, isDigitChar c = true := by
  intro fuel
  induction fuel with
  | zero =>
    intro n hn
    have : n = 0 := by omega
    subst this
    exact ⟨rfl, by simp [natCharsAux]⟩
  | succ m ih =>
    intro n hn
    unfold natCharsAux
    by_cases h0 : n = 0
    · subst h0; exact ⟨rfl, by simp⟩
    · rw [if_neg h0]
      have hdiv : n / 10 ≤ m := by
        have := Nat.div_lt_self (Nat.pos_of_ne_zero h0) (by norm_num : 1 < 10)
        omega
      obtain ⟨ihv, ihd⟩ := ih (n / 10) hdiv
      constructor
      · rw [denote_append, ihv, denote_singleton,
          digitChar_val (n % 10) (Nat.mod_lt n (by norm_num))]
        simp only [List.length_singleton, pow_one]
        omega
      · intro c hc
        rcases List.mem_append.mp hc with hc | hc
        · exact ihd c hc
        · rw [List.mem_singleton.mp hc]
          exact digitChar_isDigit _

theorem denote_natChars (n : Nat) : denote (natChars n) = n := by
  unfold natChars
  by_cases h : n = 0
  · subst h; rfl
  · rw [if_neg h]
    exact (natCharsAux_spec n n le_rfl).1

theorem natChars_digits (n : Nat) : ∀ c ∈ natChars n, isDigitChar c = true := by
  unfold natChars
  by_cases h : n = 0
  · subst h; simp; decide
  · rw [if_neg h]
    exact (natCharsAux_spec n n le_rfl).2

theorem natChars_ne_nil (n : Nat) : natChars n ≠ [] := by
  unfold natChars
  by_cases h : n = 0
  · subst h; simp
  · rw [if_neg h]
    obtain ⟨m, hm⟩ : ∃ m, n = m + 1 := ⟨n - 1, by omega⟩
    subst hm
    unfold natCharsAux
    rw [if_neg h]
    simp

theorem trimR_decomp (l : List Char) :
    ∃ t, l = trimR l ++ List.replicate t '0' := by
  refine ⟨(l.reverse.takeWhile (fun c => c == '0')).length, ?_⟩
  unfold trimR
  conv_lhs => rw [← List.reverse_reverse l,
    ← List.takeWhile_append_dropWhile (p := fun c => c == '0') (l := l.reverse)]
  rw [List.reverse_append]
  congr 1
  rw [List.eq_replicate_iff]
  refine ⟨by simp, ?_⟩
  intro b hb
  rw [List.mem_reverse] at hb
  have := List.mem_takeWhile_imp hb
  simpa using this

theorem trimR_subset {c : Char} {l : List Char} (h : c ∈ trimR l) : c ∈ l := by
  unfold trimR at h
  rw [List.mem_reverse] at h
  have := (List.dropWhile_sublist (p := fun c => c == '0') (l := l.reverse)).mem h
  rwa [List.mem_reverse] at this

/-! ## Parser lemmas: behaviour of `newFromString` on printed strings -/

theorem splitExp_no_e (l : List Char) (h : ∀ c ∈ l, c ≠ 'e' ∧ c ≠ 'E') :
    splitExp l = (l, none) := by
  induction l with
  | nil => rfl
  | cons c rest ih =>
    unfold splitExp
    rw [if_neg, ih]
    · intro c2 hc
      exact h c2 (List.mem_cons_of_mem c hc)
    · obtain ⟨h1, h2⟩ := h c (List.mem_cons_self _ _)
      rintro (rfl | rfl)
      · exact h1 rfl
      · exact h2 rfl

theorem hasDot_eq_false (l : List Char) (h : ∀ c ∈ l, c ≠ '.') :
    hasDot l = false := by
  unfold hasDot
  rw [List.any_eq_false]
  intro c hc
  simpa using h c hc

theorem splitDot_no_dot (l : List Char) (h : ∀ c ∈ l, c ≠ '.') :
    splitDot l = some (l, [], false) := by
  induction l with
  | nil => rfl
  | cons c rest ih =>
    unfold splitDot
    rw [if_neg (h c (List.mem_cons_self _ _)), ih]
    intro c2 hc
    exact h c2 (List.mem_cons_of_mem c hc)

theorem splitDot_append (a b : List Char) (ha : ∀ c ∈ a, c ≠ '.')
    (hb : ∀ c ∈ b, c ≠ '.') (hbne : b ≠ []) :
    splitDot (a ++ '.' :: b) = some (a, b, true) := by
  induction a with
  | nil =>
    rw [List.nil_append]
    unfold splitDot
    rw [if_pos rfl, hasDot_eq_false b hb]
    simp [List.isEmpty_iff, hbne]
  | cons c rest ih =>
    unfold splitDot
    simp only [List.cons_append]
    rw [if_neg (ha c (List.mem_cons_self _ _)), ih]
    intro c2 hc
    exact ha c2 (List.mem_cons_of_mem c hc)

theorem parseNatChars_digits (l : List Char) (h : ∀ c ∈ l, isDigitChar c = true)
    (hne : l ≠ []) : parseNatChars l = some (denote l) := by
  unfold parseNatChars
  rw [if_neg, if_pos]
  · exact List.all_eq_true.mpr h
  · simpa [List.isEmpty_iff] using hne

theorem parseIntChars_digits (l : List Char) (h : ∀ c ∈ l, isDigitChar c = true)
    (hne : l ≠ []) : parseIntChars l = some ((denote l : Nat) : Int) := by
  match l with
  | [] => exact absurd rfl hne
  | c :: rest =>
    have hc := h c (List.mem_cons_self _ _)
    simp only [parseIntChars]
    rw [if_neg (isDigitChar_ne hc (by decide)), if_neg (isDigitChar_ne hc (by decide)),
      parseNatChars_digits (c :: rest) h hne]
    rfl

theorem parseIntChars_neg (l : List Char) (h : ∀ c ∈ l, isDigitChar c = true)
    (hne : l ≠ []) : parseIntChars ('-' :: l) = some (-((denote l : Nat) : Int)) := by
  simp [parseIntChars, parseNatChars_digits l h hne]

/-- Signed-digit helper covering both sign cases of a printed string. -/
def signedOf (sign : Bool) (n : Nat) : Int :=
  if sign then -(n : Int) else (n : Int)

theorem parseIntChars_signed (sign : Bool) (l : List Char)
    (h : ∀ c ∈ l, isDigitChar c = true) (hne : l ≠ []) :
    parseIntChars ((if sign then ['-'] else []) ++ l) = some (signedOf sign (denote l)) := by
  cases sign with
  | false => simpa [signedOf] using parseIntChars_digits l h hne
  | true => simpa [signedOf] using parseIntChars_neg l h hne

theorem mem_sign_digits {sign : Bool} {l : List Char} {c : Char}
    (h : ∀ c2 ∈ l, isDigitChar c2 = true)
    (hc : c ∈ (if sign then ['-'] else []) ++ l) :
    c = '-' ∨ isDigitChar c = true := by
  rcases List.mem_append.mp hc with hc | hc
  · left
    cases sign with
    | false => simp at hc
    | true => simpa using hc
  · right
    exact h c hc

/-- Parsing a printed plain integer string (optional sign, digits). -/
theorem parseDecChars_plain (sign : Bool) (dp : List Char)
    (hd : ∀ c ∈ dp, isDigitChar c = true) (hne : dp ≠ []) :
    parseDecChars ((if sign then ['-'] else []) ++ dp) =
      some ⟨signedOf sign (denote dp), 0⟩ := by
  have hne2 : ∀ c ∈ (if sign then ['-'] else []) ++ dp, c ≠ 'e' ∧ c ≠ 'E' := by
    intro c hc
    rcases mem_sign_digits hd hc with rfl | hdig
    · exact ⟨by decide, by decide⟩
    · exact ⟨isDigitChar_ne hdig (by decide), isDigitChar_ne hdig (by decide)⟩
  have hnd : ∀ c ∈ (if sign then ['-'] else []) ++ dp, c ≠ '.' := by
    intro c hc
    rcases mem_sign_digits hd hc with rfl | hdig
    · decide
    · exact isDigitChar_ne hdig (by decide)
  simp only [parseDecChars, splitExp_no_e _ hne2, splitDot_no_dot _ hnd,
    List.append_nil, parseIntChars_signed sign dp hd hne]
  norm_num

/-- Parsing a printed decimal string with a point:
`sign? intpart . fracpart`. -/
theorem parseDecChars_with_dot (sign : Bool) (ip fp : List Char)
    (hip : ∀ c ∈ ip, isDigitChar c = true) (hfp : ∀ c ∈ fp, isDigitChar c = true)
    (hipne : ip ≠ []) (hfpne : fp ≠ []) :
    parseDecChars (((if sign then ['-'] else []) ++ ip) ++ '.' :: fp) =
      some ⟨signedOf sign (denote (ip ++ fp)), -(fp.length : Int)⟩ := by
  have hall : ∀ c ∈ ((if sign then ['-'] else []) ++ ip) ++ '.' :: fp,
      c ≠ 'e' ∧ c ≠ 'E' := by
    intro c hc
    rcases List.mem_append.mp hc with hc | hc
    · rcases mem_sign_digits hip hc with rfl | hdig
      · exact ⟨by decide, by decide⟩
      · exact ⟨isDigitChar_ne hdig (by decide), isDigitChar_ne hdig (by decide)⟩
    · rcases List.mem_cons.mp hc with rfl | hc
      · exact ⟨by decide, by decide⟩
      · have := hfp c hc
        exact ⟨isDigitChar_ne this (by decide), isDigitChar_ne this (by decide)⟩
  have hpref : ∀ c ∈ (if sign then ['-'] else []) ++ ip, c ≠ '.' := by
    intro c hc
    rcases mem_sign_digits hip hc with rfl | hdig
    · decide
    · exact isDigitChar_ne hdig (by decide)
  have hfpd : ∀ c ∈ fp, c ≠ '.' := by
    intro c hc
    exact isDigitChar_ne (hfp c hc) (by decide)
  have hjoin : ((if sign then ['-'] else []) ++ ip) ++ fp =
      (if sign then ['-'] else []) ++ (ip ++ fp) :=
    List.append_assoc _ _ _
  have hdig2 : ∀ c ∈ ip ++ fp, isDigitChar c = true := by
    intro c hc
    rcases List.mem_append.mp hc with hc | hc
    · exact hip c hc
    · exact hfp c hc
  have hne2 : ip ++ fp ≠ [] := by
    intro hemp
    rcases List.append_eq_nil.mp hemp with ⟨h1, _⟩
    exact hipne h1
  simp only [parseDecChars, splitExp_no_e _ hall,
    splitDot_append _ fp hpref hfpd hfpne, hjoin,
    parseIntChars_signed sign (ip ++ fp) hdig2 hne2]
  norm_num

/-! ## Round trip: a printed decimal parses back to the same value -/

theorem q_cast_pow_toNat (x : ℤ) (h : 0 ≤ x) :
    ((10 : ℚ) ^ x.toNat) = (10 : ℚ) ^ x := by
  rw [← zpow_natCast (10 : ℚ), Int.toNat_of_nonneg h]

theorem q_pow_collapse (a : ℚ) (t : Nat) (k : ℤ) :
    (a * (10 : ℚ) ^ (t : ℕ)) * (10 : ℚ) ^ (-k) = a * (10 : ℚ) ^ ((t : ℤ) - k) := by
  rw [mul_assoc, ← zpow_natCast (10 : ℚ) t,
    ← zpow_add₀ (by norm_num : (10 : ℚ) ≠ 0), ← sub_eq_add_neg]

theorem parseDecChars_assembled (sign : Bool) (ip fr2 : List Char) (n t k : Nat)
    (hipd : ∀ c ∈ ip, isDigitChar c = true)
    (hfr2d : ∀ c ∈ fr2, isDigitChar c = true)
    (hipne : ip ≠ [])
    (hn : denote (ip ++ fr2) * 10 ^ t = n)
    (hkt : k = fr2.length + t) :
    ∃ d2, parseDecChars ((if sign then ['-'] else []) ++
        (ip ++ (if fr2.isEmpty then [] else '.' :: fr2))) = some d2 ∧
      d2.val = ((signedOf sign n : Int) : ℚ) * (10 : ℚ) ^ (-(k : ℤ)) := by
  by_cases hemp : fr2 = []
  case pos =>
    subst hemp
    simp only [List.isEmpty_nil, if_true, List.append_nil]
    refine ⟨_, parseDecChars_plain sign ip hipd hipne, ?_⟩
    unfold Dec.val
    rw [zpow_zero, mul_one]
    rw [List.append_nil] at hn
    have hk2 : k = t := by simpa using hkt
    subst hk2
    cases sign with
    | false =>
      simp only [signedOf, Int.cast_natCast]
      rw [← hn]
      push_cast
      rw [q_pow_collapse, sub_self, zpow_zero, mul_one]
    | true =>
      simp only [signedOf, Int.cast_neg, Int.cast_natCast]
      rw [← hn]
      push_cast
      rw [neg_mul, neg_inj, q_pow_collapse, sub_self, zpow_zero, mul_one]
  case neg =>
    have hie : fr2.isEmpty = false := by
      simpa [List.isEmpty_iff] using hemp
    simp only [hie, Bool.false_eq_true, if_false]
    rw [← List.append_assoc]
    refine ⟨_, parseDecChars_with_dot sign ip fr2 hipd hfr2d hipne hemp, ?_⟩
    unfold Dec.val
    cases sign with
    | false =>
      simp only [signedOf, Int.cast_natCast]
      rw [← hn]
      push_cast
      rw [q_pow_collapse, show ((t : ℤ) - (k : ℤ)) = -((fr2.length : ℤ)) from by omega]
    | true =>
      simp only [signedOf, Int.cast_neg, Int.cast_natCast]
      rw [← hn]
      push_cast
      rw [neg_mul, neg_mul, neg_inj, q_pow_collapse,
        show ((t : ℤ) - (k : ℤ)) = -((fr2.length : ℤ)) from by omega]

theorem signedOf_true (n : Nat) : signedOf true n = -(n : Int) := rfl

theorem signedOf_false (n : Nat) : signedOf false n = (n : Int) := rfl

/-- Negative-exponent printing round trip, factored over the sign of
the coefficient: given the arithmetic facts about the printed pieces,
the printed string parses back to the same value. -/
theorem decChars_parse_val (d : Dec) (ip fr2 : List Char) (t : Nat)
    (hipd : ∀ c ∈ ip, isDigitChar c = true)
    (hfr2d : ∀ c ∈ fr2, isDigitChar c = true)
    (hipne : ip ≠ [])
    (hn : denote (ip ++ fr2) * 10 ^ t = d.num.natAbs)
    (hkt : (-d.exp).toNat = fr2.length + t)
    (hxneg : d.exp < 0)
    (hdecpos : ¬ d.num < 0 →
      decChars d = ip ++ (if fr2.isEmpty then [] else '.' :: fr2))
    (hdecneg : d.num < 0 →
      decChars d = '-' :: (ip ++ (if fr2.isEmpty then [] else '.' :: fr2))) :
    ∃ d2, parseDecChars (decChars d) = some d2 ∧ d2.val = d.val := by
  have hexp : d.exp = -(((-d.exp).toNat : ℤ)) := by omega
  by_cases hneg : d.num < 0
  · obtain ⟨d2, hp, hv⟩ := parseDecChars_assembled true ip fr2 d.num.natAbs t
      (-d.exp).toNat hipd hfr2d hipne hn hkt
    refine ⟨d2, ?_, ?_⟩
    · rw [hdecneg hneg]
      simpa using hp
    · rw [hv, signedOf_true]
      unfold Dec.val
      have h1 : ((d.num.natAbs : ℤ)) = -d.num := Int.ofNat_natAbs_of_nonpos (le_of_lt hneg)
      have h2 : ((-(d.num.natAbs : ℤ) : ℤ) : ℚ) = (d.num : ℚ) := by
        rw [h1]; push_cast; ring
      rw [h2, ← hexp]
  · obtain ⟨d2, hp, hv⟩ := parseDecChars_assembled false ip fr2 d.num.natAbs t
      (-d.exp).toNat hipd hfr2d hipne hn hkt
    refine ⟨d2, ?_, ?_⟩
    · rw [hdecpos hneg]
      simpa using hp
    · rw [hv, signedOf_false]
      unfold Dec.val
      have h1 : ((d.num.natAbs : ℤ)) = d.num := Int.natAbs_of_nonneg (not_lt.mp hneg)
      rw [show (((d.num.natAbs : ℤ)) : ℚ) = (d.num : ℚ) from by rw [h1], ← hexp]

/-- Round trip of `Decimal.String()` through `NewFromString`: the
printed text parses back to a decimal of the same value. -/
theorem parseDecChars_decChars (d : Dec) :
    ∃ d2, parseDecChars (decChars d) = some d2 ∧ d2.val = d.val := by
  by_cases hx : 0 ≤ d.exp
  case pos =>
    have hd := natChars_digits (d.num * (10 : Int) ^ d.exp.toNat).natAbs
    have hne := natChars_ne_nil (d.num * (10 : Int) ^ d.exp.toNat).natAbs
    by_cases hneg : d.num * (10 : Int) ^ d.exp.toNat < 0
    · have hdec : decChars d =
          '-' :: natChars (d.num * (10 : Int) ^ d.exp.toNat).natAbs := by
        simp [decChars, intChars, hx, hneg]
      obtain hp := parseDecChars_plain true
        (natChars (d.num * (10 : Int) ^ d.exp.toNat).natAbs) hd hne
      rw [denote_natChars] at hp
      refine ⟨⟨signedOf true (d.num * (10 : Int) ^ d.exp.toNat).natAbs, 0⟩, ?_, ?_⟩
      · rw [hdec]
        simpa using hp
      · unfold Dec.val
        rw [zpow_zero, mul_one, signedOf_true]
        have h1 : (((d.num * (10 : Int) ^ d.exp.toNat).natAbs : ℤ)) =
            -(d.num * (10 : Int) ^ d.exp.toNat) :=
          Int.ofNat_natAbs_of_nonpos (le_of_lt hneg)
        have h2 : ((-((d.num * (10 : Int) ^ d.exp.toNat).natAbs : ℤ) : ℤ) : ℚ) =
            ((d.num * (10 : Int) ^ d.exp.toNat : ℤ) : ℚ) := by
          rw [h1]; push_cast; ring
        rw [h2]
        push_cast
        rw [q_cast_pow_toNat d.exp hx]
    · have hdec : decChars d =
          natChars (d.num * (10 : Int) ^ d.exp.toNat).natAbs := by
        simp [decChars, intChars, hx, hneg]
      obtain hp := parseDecChars_plain false
        (natChars (d.num * (10 : Int) ^ d.exp.toNat).natAbs) hd hne
      rw [denote_natChars] at hp
      refine ⟨⟨signedOf false (d.num * (10 : Int) ^ d.exp.toNat).natAbs, 0⟩, ?_, ?_⟩
      · rw [hdec]
        simpa using hp
      · unfold Dec.val
        rw [zpow_zero, mul_one, signedOf_false]
        have h1 : (((d.num * (10 : Int) ^ d.exp.toNat).natAbs : ℤ)) =
            d.num * (10 : Int) ^ d.exp.toNat :=
          Int.natAbs_of_nonneg (not_lt.mp hneg)
        rw [show ((((d.num * (10 : Int) ^ d.exp.toNat).natAbs : ℤ)) : ℚ) =
            ((d.num * (10 : Int) ^ d.exp.toNat : ℤ) : ℚ) from by rw [h1]]
        push_cast
        rw [q_cast_pow_toNat d.exp hx]
  case neg =>
    push_neg at hx
    have hxle : ¬ 0 ≤ d.exp := not_le.mpr hx
    by_cases hL : (-d.exp).toNat < (natChars d.num.natAbs).length
    case pos =>
      obtain ⟨t, htrim⟩ := trimR_decomp
        ((natChars d.num.natAbs).drop
          ((natChars d.num.natAbs).length - (-d.exp).toNat))
      have hipd : ∀ c ∈ (natChars d.num.natAbs).take
          ((natChars d.num.natAbs).length - (-d.exp).toNat), isDigitChar c = true :=
        fun c hc => natChars_digits _ c (List.take_subset _ _ hc)
      have hfrd : ∀ c ∈ (natChars d.num.natAbs).drop
          ((natChars d.num.natAbs).length - (-d.exp).toNat), isDigitChar c = true :=
        fun c hc => natChars_digits _ c (List.drop_subset _ _ hc)
      have hfr2d : ∀ c ∈ trimR ((natChars d.num.natAbs).drop
          ((natChars d.num.natAbs).length - (-d.exp).toNat)), isDigitChar c = true :=
        fun c hc => hfrd c (trimR_subset hc)
      have hiplen : ((natChars d.num.natAbs).take
          ((natChars d.num.natAbs).length - (-d.exp).toNat)).length =
          (natChars d.num.natAbs).length - (-d.exp).toNat := by
        rw [List.length_take]
        omega
      have hipne : (natChars d.num.natAbs).take
          ((natChars d.num.natAbs).length - (-d.exp).toNat) ≠ [] := by
        intro h0
        have := congrArg List.length h0
        rw [hiplen] at this
        simp at this
        omega
      have hfrlen : ((natChars d.num.natAbs).drop
          ((natChars d.num.natAbs).length - (-d.exp).toNat)).length = (-d.exp).toNat := by
        rw [List.length_drop]
        omega
      have hfr : denote ((natChars d.num.natAbs).drop
          ((natChars d.num.natAbs).length - (-d.exp).toNat)) =
          denote (trimR ((natChars d.num.natAbs).drop
            ((natChars d.num.natAbs).length - (-d.exp).toNat))) * 10 ^ t := by
        conv_lhs => rw [htrim]
        rw [denote_append, denote_replicate_zero, List.length_replicate, add_zero]
      have hkt : (-d.exp).toNat = (trimR ((natChars d.num.natAbs).drop
          ((natChars d.num.natAbs).length - (-d.exp).toNat))).length + t := by
        have hlen := congrArg List.length htrim
        simp only [List.length_append, List.length_replicate] at hlen
        omega
      have hn : denote ((natChars d.num.natAbs).take
            ((natChars d.num.natAbs).length - (-d.exp).toNat) ++
          trimR ((natChars d.num.natAbs).drop
            ((natChars d.num.natAbs).length - (-d.exp).toNat))) * 10 ^ t =
          d.num.natAbs := by
        rw [denote_append]
        rw [add_mul, mul_assoc, ← pow_add, ← hfr]
        rw [show (trimR ((natChars d.num.natAbs).drop
            ((natChars d.num.natAbs).length - (-d.exp).toNat))).length + t =
            ((natChars d.num.natAbs).drop
              ((natChars d.num.natAbs).length - (-d.exp).toNat)).length from by
          rw [hfrlen]; omega]
        rw [← denote_append, List.take_append_drop, denote_natChars]
      refine decChars_parse_val d _ _ t hipd hfr2d hipne hn hkt hx ?_ ?_
      · intro hnum
        simp [decChars, hxle, hL, hnum]
      · intro hnum
        simp [decChars, hxle, hL, hnum]
    case neg =>
      obtain ⟨t, htrim⟩ := trimR_decomp
        (List.replicate ((-d.exp).toNat - (natChars d.num.natAbs).length) '0' ++
          natChars d.num.natAbs)
      have hfrd : ∀ c ∈ List.replicate
          ((-d.exp).toNat - (natChars d.num.natAbs).length) '0' ++
          natChars d.num.natAbs, isDigitChar c = true := by
        intro c hc
        rcases List.mem_append.mp hc with hc | hc
        · rw [List.eq_of_mem_replicate hc]
          decide
        · exact natChars_digits _ c hc
      have hfr2d : ∀ c ∈ trimR (List.replicate
          ((-d.exp).toNat - (natChars d.num.natAbs).length) '0' ++
          natChars d.num.natAbs), isDigitChar c = true :=
        fun c hc => hfrd c (trimR_subset hc)
      have hfrlen : (List.replicate
          ((-d.exp).toNat - (natChars d.num.natAbs).length) '0' ++
          natChars d.num.natAbs).length = (-d.exp).toNat := by
        rw [List.length_append, List.length_replicate]
        omega
      have hfr : denote (List.replicate
            ((-d.exp).toNat - (natChars d.num.natAbs).length) '0' ++
            natChars d.num.natAbs) =
          denote (trimR (List.replicate
            ((-d.exp).toNat - (natChars d.num.natAbs).length) '0' ++
            natChars d.num.natAbs)) * 10 ^ t := by
        conv_lhs => rw [htrim]
        rw [denote_append, denote_replicate_zero, List.length_replicate, add_zero]
      have hkt : (-d.exp).toNat = (trimR (List.replicate
          ((-d.exp).toNat - (natChars d.num.natAbs).length) '0' ++
          natChars d.num.natAbs)).length + t := by
        have hlen := congrArg List.length htrim
        simp only [List.length_append, List.length_replicate] at hlen
        omega
      have hn : denote (['0'] ++ trimR (List.replicate
            ((-d.exp).toNat - (natChars d.num.natAbs).length) '0' ++
            natChars d.num.natAbs)) * 10 ^ t = d.num.natAbs := by
        rw [show (['0'] : List Char) ++ trimR (List.replicate
            ((-d.exp).toNat - (natChars d.num.natAbs).length) '0' ++
            natChars d.num.natAbs) = '0' :: trimR (List.replicate
            ((-d.exp).toNat - (natChars d.num.natAbs).length) '0' ++
            natChars d.num.natAbs) from rfl]
        rw [denote_cons_zero, ← hfr, denote_append, denote_replicate_zero,
          denote_natChars, zero_mul, zero_add]
      refine decChars_parse_val d ['0'] _ t (by intro c hc; simp at hc; subst hc; decide)
        hfr2d (by simp) hn hkt hx ?_ ?_
      · intro hnum
        simp [decChars, hxle, hL, hnum]
      · intro hnum
        simp [decChars, hxle, hL, hnum]

/-- String-level round trip. -/
theorem newFromString_toString (d : Dec) :
    ∃ d2, newFromString (Dec.toString d) = some d2 ∧ d2.val = d.val :=
  parseDecChars_decChars d

/-! ## Value-level facts about the decimal operations -/

theorem q_rescale (x e : ℤ) (h : e ≤ x) :
    ((10 : ℚ) ^ ((x - e).toNat : ℕ)) * (10 : ℚ) ^ e = (10 : ℚ) ^ x := by
  rw [q_cast_pow_toNat (x - e) (by omega), ← zpow_add₀ (by norm_num : (10 : ℚ) ≠ 0)]
  congr 1
  omega

theorem Dec.val_add (a b : Dec) : (a.add b).val = a.val + b.val := by
  unfold Dec.add Dec.val
  push_cast
  rw [add_mul, mul_assoc, mul_assoc,
    q_rescale a.exp (min a.exp b.exp) (min_le_left _ _),
    q_rescale b.exp (min a.exp b.exp) (min_le_right _ _)]

theorem Dec.val_sub (a b : Dec) : (a.sub b).val = a.val - b.val := by
  unfold Dec.sub Dec.val
  push_cast
  rw [sub_mul, mul_assoc, mul_assoc,
    q_rescale a.exp (min a.exp b.exp) (min_le_left _ _),
    q_rescale b.exp (min a.exp b.exp) (min_le_right _ _)]

theorem Dec.val_neg (d : Dec) : d.neg.val = -d.val := by
  unfold Dec.neg Dec.val
  push_cast
  ring

theorem Dec.val_zero : Dec.zero.val = 0 := by
  simp [Dec.zero, Dec.val]

theorem Dec.val_zeroVar : Dec.zeroVar.val = 0 := by
  simp [Dec.zeroVar, Dec.val]

theorem Dec.isZero_iff (d : Dec) : d.isZero = true ↔ d.val = 0 := by
  unfold Dec.isZero Dec.val
  rw [beq_iff_eq]
  constructor
  · intro h
    rw [h]
    simp
  · intro h
    rcases mul_eq_zero.mp h with h2 | h2
    · exact_mod_cast h2
    · exact absurd h2 (zpow_ne_zero _ (by norm_num))

theorem Dec.le_iff (a b : Dec) : a.le b = true ↔ a.val ≤ b.val := by
  unfold Dec.le Dec.val
  simp only [decide_eq_true_eq]
  have key : ∀ (x : ℤ), min a.exp b.exp ≤ x → ∀ A : ℤ,
      (A : ℚ) * (10 : ℚ) ^ x =
        ((A * (10 : Int) ^ ((x - min a.exp b.exp).toNat) : ℤ) : ℚ) *
          (10 : ℚ) ^ (min a.exp b.exp) := by
    intro x hx A
    push_cast
    rw [mul_assoc, q_rescale x (min a.exp b.exp) hx]
  rw [key a.exp (min_le_left _ _) a.num, key b.exp (min_le_right _ _) b.num,
    mul_le_mul_right (zpow_pos (by norm_num : (0 : ℚ) < 10) (min a.exp b.exp))]
  exact Int.cast_le.symm

/-- Reading back a stored printed decimal (with the error-discarding
`getD` of the Go helpers) preserves the value. -/
theorem getD_parse_toString_val (d : Dec) :
    ((parseDecChars (decChars d)).getD Dec.zeroVar).val = d.val := by
  obtain ⟨d2, hp, hv⟩ := parseDecChars_decChars d
  rw [hp, Option.getD_some]
  exact hv

theorem parse_getD_val (sstr : String) (d : Dec) (h : sstr = d.toString) :
    ((newFromString sstr).getD Dec.zeroVar).val = d.val := by
  subst h
  exact getD_parse_toString_val d

/-! ## Store lemmas -/

theorem findAccount_setBalanceFirst_self (l : List Account) (aid : Nat) (sstr : String) :
    List.find? (fun a => a.id == aid) (setBalanceFirst l aid sstr) =
      (List.find? (fun a => a.id == aid) l).map (fun a => { a with balance := sstr }) := by
  induction l with
  | nil => rfl
  | cons a rest ih =>
    by_cases h : a.id = aid
    · unfold setBalanceFirst
      rw [if_pos h]
      rw [List.find?_cons_of_pos _ (by simp [h]), List.find?_cons_of_pos _ (by simp [h])]
      rfl
    · unfold setBalanceFirst
      rw [if_neg h]
      rw [List.find?_cons_of_neg _ (by simp [h]), List.find?_cons_of_neg _ (by simp [h])]
      exact ih

theorem findAccount_setBalanceFirst_ne (l : List Account) (aid aid2 : Nat) (sstr : String)
    (h : aid2 ≠ aid) :
    List.find? (fun a => a.id == aid2) (setBalanceFirst l aid sstr) =
      List.find? (fun a => a.id == aid2) l := by
  induction l with
  | nil => rfl
  | cons a rest ih =>
    by_cases h1 : a.id = aid
    · unfold setBalanceFirst
      rw [if_pos h1]
      rw [List.find?_cons_of_neg _ (by simp [h1]; omega),
        List.find?_cons_of_neg _ (by simp [h1]; omega)]
    · unfold setBalanceFirst
      rw [if_neg h1]
      by_cases h2 : a.id = aid2
      · rw [List.find?_cons_of_pos _ (by simp [h2]), List.find?_cons_of_pos _ (by simp [h2])]
      · rw [List.find?_cons_of_neg _ (by simp [h2]), List.find?_cons_of_neg _ (by simp [h2])]
        exact ih

/-- `UpdateOne` on the accounts collection, as a state update. -/
def withBalanceSet (st : LedgerState) (aid : Nat) (sstr : String) : LedgerState :=
  { st with accounts := setBalanceFirst st.accounts aid sstr }

theorem incrementBalance_ok {fail : Bool} {st : LedgerState} {aid : Nat} {delta : Dec}
    {s2 : LedgerState} (h : incrementBalance fail st aid delta = .ok s2) :
    fail = false ∧ ∃ acc, findAccount st aid = some acc ∧
      s2 = withBalanceSet st aid ((acc.GetBalance.add delta).toString) := by
  unfold incrementBalance at h
  by_cases hf : fail
  · rw [if_pos hf] at h
    simp at h
  · rw [if_neg hf] at h
    cases hfind : findAccount st aid with
    | none =>
      rw [hfind] at h
      simp at h
    | some acc =>
      rw [hfind] at h
      simp only [Except.ok.injEq] at h
      exact ⟨by simpa using hf, acc, rfl, h.symm⟩

/-- The single journal entry written by a successful posting. -/
def postedEntry (st : LedgerState) (ty : TransactionType) (a : Dec)
    (dA cA : Nat) (ref : String) : JournalEntry :=
  { id := st.nextId, transactionId := 0, type := ty, amount := a.toString,
    tranRef := ref, debitAccount := dA, creditAccount := cA }

theorem postTxnBody_ok {f : Faults} {ty : TransactionType} {a : Dec} {dA cA : Nat}
    {ref : String} {st sf : LedgerState}
    (h : postTxnBody f ty a dA cA ref st = .ok sf) :
    f.debitFail = false ∧ f.creditFail = false ∧ f.insertFail = false ∧
    ∃ accD accC,
      findAccount st dA = some accD ∧
      findAccount (withBalanceSet st dA ((accD.GetBalance.add a.neg).toString)) cA =
        some accC ∧
      sf = { withBalanceSet (withBalanceSet st dA ((accD.GetBalance.add a.neg).toString))
               cA ((accC.GetBalance.add a).toString) with
             journals := st.journals ++ [postedEntry st ty a dA cA ref],
             nextId := st.nextId + 1 } := by
  unfold postTxnBody at h
  cases h1 : incrementBalance f.debitFail st dA a.neg with
  | error e =>
    rw [h1] at h
    simp [Bind.bind, Except.bind] at h
  | ok s1 =>
    rw [h1] at h
    simp only [Bind.bind, Except.bind] at h
    cases h2 : incrementBalance f.creditFail s1 cA a with
    | error e =>
      rw [h2] at h
      simp at h
    | ok s2 =>
      rw [h2] at h
      simp only at h
      by_cases hins : f.insertFail
      · rw [if_pos hins] at h
        simp [throw, throwThe, MonadExceptOf.throw] at h
      · rw [if_neg hins] at h
        simp only [pure, Except.pure, Except.ok.injEq] at h
        obtain ⟨hd1, accD, hfd, hs1⟩ := incrementBalance_ok h1
        obtain ⟨hc1, accC, hfc, hs2⟩ := incrementBalance_ok h2
        subst hs1
        subst hs2
        refine ⟨hd1, hc1, by simpa using hins, accD, accC, hfd, hfc, h.symm⟩

theorem postDoubleEntry_ok {f : Faults} {st : LedgerState} {ty : TransactionType}
    {a : Dec} {dA cA : Nat} {ref : String}
    (h : (postDoubleEntry f st ty a dA cA ref).2 = none) :
    a.le Dec.zero = false ∧
      postTxnBody f ty a dA cA ref st = .ok (postDoubleEntry f st ty a dA cA ref).1 := by
  unfold postDoubleEntry at h ⊢
  by_cases hle : a.le Dec.zero
  · rw [if_pos hle] at h
    simp at h
  · rw [if_neg hle] at h ⊢
    unfold runInTransaction at h ⊢
    cases hb : postTxnBody f ty a dA cA ref st with
    | ok s =>
      exact ⟨by simpa using hle, rfl⟩
    | error e =>
      rw [hb] at h
      simp at h

/-! ## Derived helpers for the claim statements -/

/-- The parsed value of an account balance as stored, when the account
exists. -/
def storedBalanceVal (st : LedgerState) (aid : Nat) : Option ℚ :=
  (findAccount st aid).map (fun a => a.GetBalance.val)

/-- The journal legs affecting an account (the reconciliation filter),
in store order. -/
def legsFor (st : LedgerState) (aid : Nat) : List JournalEntry :=
  st.journals.filter (fun e => e.debitAccount == aid || e.creditAccount == aid)

theorem GetBalance_set_toString (acc : Account) (d : Dec) :
    (Account.GetBalance { acc with balance := d.toString }).val = d.val := by
  unfold Account.GetBalance
  exact parse_getD_val _ d rfl

/-- Success shape of `postDoubleEntry`: amount accepted, both
increments and the append succeeded, and the committed state is the
two balance updates plus one appended entry. -/
theorem postDoubleEntry_state {f : Faults} {st : LedgerState} {ty : TransactionType}
    {a : Dec} {dA cA : Nat} {ref : String}
    (h : (postDoubleEntry f st ty a dA cA ref).2 = none) :
    ∃ accD accC,
      findAccount st dA = some accD ∧
      findAccount (withBalanceSet st dA ((accD.GetBalance.add a.neg).toString)) cA =
        some accC ∧
      (postDoubleEntry f st ty a dA cA ref).1 =
        { withBalanceSet (withBalanceSet st dA ((accD.GetBalance.add a.neg).toString))
            cA ((accC.GetBalance.add a).toString) with
          journals := st.journals ++ [postedEntry st ty a dA cA ref],
          nextId := st.nextId + 1 } := by
  obtain ⟨hle, hb⟩ := postDoubleEntry_ok h
  obtain ⟨_, _, _, accD, accC, hfd, hfc, hsf⟩ := postTxnBody_ok hb
  exact ⟨accD, accC, hfd, hfc, hsf⟩

/-- The journal side of a successful posting: exactly one entry is
appended and its fields copy the call arguments. -/
theorem postDoubleEntry_entry {f : Faults} {st : LedgerState} {ty : TransactionType}
    {a : Dec} {dA cA : Nat} {ref : String}
    (h : (postDoubleEntry f st ty a dA cA ref).2 = none) :
    ∃ en : JournalEntry,
      (postDoubleEntry f st ty a dA cA ref).1.journals = st.journals ++ [en] ∧
      en.type = ty ∧ en.amount = a.toString ∧ en.GetAmount.val = a.val ∧
      en.tranRef = ref ∧ en.debitAccount = dA ∧ en.creditAccount = cA := by
  obtain ⟨accD, accC, hfd, hfc, hsf⟩ := postDoubleEntry_state h
  refine ⟨postedEntry st ty a dA cA ref, ?_, rfl, rfl, ?_, rfl, rfl, rfl⟩
  · rw [hsf]
  · unfold postedEntry JournalEntry.GetAmount
    exact parse_getD_val _ a rfl

/-! ## Scenario A (spec §8): two fresh accounts and one TopUp of 1000 -/

/-- Empty store. -/
def scenarioSt0 : LedgerState := ⟨[], [], 0⟩

/-- `CreateAccount(ClientInsurance, 0, "Client")`. -/
def scenarioClient : Account × LedgerState :=
  CreateAccount scenarioSt0 .ClientInsurance Dec.zero "Client"

/-- `CreateAccount(PaymentGateway, 0, "Gateway")`. -/
def scenarioGateway : Account × LedgerState :=
  CreateAccount scenarioClient.2 .PaymentGateway Dec.zero "Gateway"

/-- `ClientAccountTopUp(client, gateway, 1000, "t1")` on the store with
the two fresh accounts. -/
def scenarioTopUp : LedgerState × Option LedgerError :=
  ClientAccountTopUp noFaults scenarioGateway.2
    scenarioClient.1.id scenarioGateway.1.id ⟨1000, 0⟩ "t1"

/-- The single journal entry of Scenario A. -/
def scenarioEntry : JournalEntry :=
  { id := 2, transactionId := 0, type := .TopUp, amount := "1000",
    tranRef := "t1", debitAccount := 1, creditAccount := 0 }

/-! ## Claims -/

/-- C1: evaluation of the reconciliation replay against the posting
convention on Scenario A.  Posting stored `1000` on the credit-leg
(client) account and `-1000` on the debit-leg (gateway) account, but
the replay step ADDS the amount for the debit leg (computing `1000`
from `Dec.zeroVar`) and SUBTRACTS it for the credit leg (computing
`-1000`) — the opposite of the posting convention the claim states,
so the replayed balance is the negation of the posted one. -/
theorem replay_inverts_posting_sign_convention :
    scenarioTopUp.2 = none ∧
    (findAccount scenarioTopUp.1 scenarioClient.1.id).map (fun a => a.balance) =
      some "1000" ∧
    (findAccount scenarioTopUp.1 scenarioGateway.1.id).map (fun a => a.balance) =
      some "-1000" ∧
    scenarioTopUp.1.journals = [scenarioEntry] ∧
    scenarioEntry.debitAccount = scenarioGateway.1.id ∧
    scenarioEntry.creditAccount = scenarioClient.1.id ∧
    replayStep scenarioGateway.1.id Dec.zeroVar scenarioEntry = ⟨1000, 0⟩ ∧
    replayStep scenarioClient.1.id Dec.zeroVar scenarioEntry = ⟨-1000, 0⟩ := by
  decide

/-- C2: evaluation of `ReconcileAccount` on both Scenario A accounts:
the code reports `Status = Discrepancy` with discrepancy `-2000`
(client) and `2000` (gateway), not `Reconciled` with `0` as the claim
states. -/
theorem scenario_reconcile_reports_discrepancy :
    scenarioTopUp.2 = none ∧
    (ReconcileAccount (fun _ => false) scenarioTopUp.1 scenarioClient.1.id).map
      (fun r => (r.status, r.discrepancy)) =
      .ok (.Discrepancy, ⟨-2000, 0⟩) ∧
    (ReconcileAccount (fun _ => false) scenarioTopUp.1 scenarioGateway.1.id).map
      (fun r => (r.status, r.discrepancy)) =
      .ok (.Discrepancy, ⟨2000, 0⟩) := by
  decide

/-- C3: atomicity of posting.  If any step inside the transaction
scope fails — a balance increment or the journal append — the call
reports an error and the visible state is exactly the pre-call state:
no journal entry and no balance change survives.  (The three domain
wrappers are definitional specializations of `postDoubleEntry`, proved
in the C7 theorem, so the statement covers them.) -/
theorem postDoubleEntry_atomic (f : Faults) (st : LedgerState) (ty : TransactionType)
    (a : Dec) (dA cA : Nat) (ref : String) (e : LedgerError)
    (h : postTxnBody f ty a dA cA ref st = .error e) :
    (postDoubleEntry f st ty a dA cA ref).2.isSome = true ∧
    (postDoubleEntry f st ty a dA cA ref).1 = st ∧
    (postDoubleEntry f st ty a dA cA ref).1.journals = st.journals ∧
    (postDoubleEntry f st ty a dA cA ref).1.accounts = st.accounts := by
  unfold postDoubleEntry runInTransaction
  by_cases hle : a.le Dec.zero
  · rw [if_pos hle]
    exact ⟨rfl, rfl, rfl, rfl⟩
  · rw [if_neg hle, h]
    exact ⟨rfl, rfl, rfl, rfl⟩

/-- One account, injected journal-append failure. -/
def wSt : LedgerState := ⟨[⟨0, .ClientInsurance, "5", "A"⟩], [], 1⟩

theorem postDoubleEntry_atomic_witness :
    postTxnBody ⟨false, false, true⟩ .TopUp ⟨7, 0⟩ 0 0 "w" wSt = .error .storeFailure ∧
    ((postDoubleEntry ⟨false, false, true⟩ wSt .TopUp ⟨7, 0⟩ 0 0 "w").2.isSome = true ∧
      (postDoubleEntry ⟨false, false, true⟩ wSt .TopUp ⟨7, 0⟩ 0 0 "w").1 = wSt ∧
      (postDoubleEntry ⟨false, false, true⟩ wSt .TopUp ⟨7, 0⟩ 0 0 "w").1.journals =
        wSt.journals ∧
      (postDoubleEntry ⟨false, false, true⟩ wSt .TopUp ⟨7, 0⟩ 0 0 "w").1.accounts =
        wSt.accounts) :=
  ⟨by decide,
    postDoubleEntry_atomic ⟨false, false, true⟩ wSt .TopUp ⟨7, 0⟩ 0 0 "w"
      .storeFailure (by decide)⟩

/-- C5: a non-positive amount is rejected with the invalid-amount
error before the transaction scope opens, by `postDoubleEntry` and by
each of the three domain wrappers, and the state is returned
untouched. -/
theorem post_invalid_amount (f : Faults) (st : LedgerState) (ty : TransactionType)
    (a : Dec) (dA cA x y : Nat) (ref : String) (h : a.val ≤ 0) :
    postDoubleEntry f st ty a dA cA ref = (st, some .invalidAmount) ∧
    ClientAccountTopUp f st x y a ref = (st, some .invalidAmount) ∧
    ClientPremiumPayment f st x y a ref = (st, some .invalidAmount) ∧
    PostAgentCommission f st x y a ref = (st, some .invalidAmount) := by
  have hle : a.le Dec.zero = true :=
    (Dec.le_iff a Dec.zero).mpr (by rw [Dec.val_zero]; exact h)
  have hmain : ∀ ty2 d2 c2,
      postDoubleEntry f st ty2 a d2 c2 ref = (st, some .invalidAmount) := by
    intro ty2 d2 c2
    unfold postDoubleEntry
    rw [if_pos hle]
  exact ⟨hmain ty dA cA, hmain _ y x, hmain _ x y, hmain _ x y⟩

theorem post_invalid_amount_witness :
    postDoubleEntry noFaults wSt .TopUp ⟨-1, 0⟩ 0 0 "w" = (wSt, some .invalidAmount) ∧
    ClientAccountTopUp noFaults wSt 0 0 ⟨-1, 0⟩ "w" = (wSt, some .invalidAmount) ∧
    ClientPremiumPayment noFaults wSt 0 0 ⟨-1, 0⟩ "w" = (wSt, some .invalidAmount) ∧
    PostAgentCommission noFaults wSt 0 0 ⟨-1, 0⟩ "w" = (wSt, some .invalidAmount) :=
  post_invalid_amount noFaults wSt .TopUp ⟨-1, 0⟩ 0 0 0 0 "w"
    (by norm_num [Dec.val])

/-- One account playing both legs of a posting (the C4 edge case). -/
def c4St : LedgerState := ⟨[⟨0, .ClientInsurance, "100", "A"⟩], [], 1⟩

/-- C4 counterexample: a posting whose debit and credit account ids
coincide succeeds, yet the account balance is unchanged — it does not
decrease by the posted amount 1000, so the claim as stated (with no
distinctness requirement on the two accounts) fails. -/
theorem conservation_fails_for_identical_accounts :
    (postDoubleEntry noFaults c4St .TopUp ⟨1000, 0⟩ 0 0 "t").2 = none ∧
    (findAccount c4St 0).map (fun a => a.GetBalance) = some ⟨100, 0⟩ ∧
    (findAccount (postDoubleEntry noFaults c4St .TopUp ⟨1000, 0⟩ 0 0 "t").1 0).map
      (fun a => a.GetBalance) = some ⟨100, 0⟩ ∧
    (Dec.mk 100 0).val ≠ (Dec.mk 100 0).val - (Dec.mk 1000 0).val := by
  refine ⟨by decide, by decide, by decide, by norm_num [Dec.val]⟩

/-- C4 (amended with distinct accounts): a successful posting of
amount `a` between two distinct accounts decreases the debit account
balance by exactly `a`, increases the credit account balance by
exactly `a`, and leaves the sum of the two balances unchanged. -/
theorem post_conservation (f : Faults) (st : LedgerState) (ty : TransactionType)
    (a : Dec) (dA cA : Nat) (ref : String) (hne : dA ≠ cA)
    (h : (postDoubleEntry f st ty a dA cA ref).2 = none) :
    ∃ bd bc : ℚ,
      storedBalanceVal st dA = some bd ∧
      storedBalanceVal st cA = some bc ∧
      storedBalanceVal (postDoubleEntry f st ty a dA cA ref).1 dA = some (bd - a.val) ∧
      storedBalanceVal (postDoubleEntry f st ty a dA cA ref).1 cA = some (bc + a.val) ∧
      (bd - a.val) + (bc + a.val) = bd + bc := by
  obtain ⟨accD, accC, hfd, hfc, hsf⟩ := postDoubleEntry_state h
  have hfd2 : List.find? (fun x => x.id == dA) st.accounts = some accD := hfd
  have hfc2 : List.find? (fun x => x.id == cA)
      (setBalanceFirst st.accounts dA ((accD.GetBalance.add a.neg).toString)) =
      some accC := hfc
  have hfc3 : List.find? (fun x => x.id == cA) st.accounts = some accC := by
    rw [← findAccount_setBalanceFirst_ne st.accounts dA cA
      ((accD.GetBalance.add a.neg).toString) (Ne.symm hne)]
    exact hfc2
  refine ⟨accD.GetBalance.val, accC.GetBalance.val, ?_, ?_, ?_, ?_, by ring⟩
  · unfold storedBalanceVal
    rw [hfd]
    rfl
  · unfold storedBalanceVal findAccount
    rw [hfc3]
    rfl
  · unfold storedBalanceVal
    rw [hsf]
    simp only [findAccount, withBalanceSet]
    rw [findAccount_setBalanceFirst_ne _ cA dA _ hne,
      findAccount_setBalanceFirst_self, hfd2]
    simp only [Option.map_some', Option.some.injEq]
    rw [GetBalance_set_toString accD (accD.GetBalance.add a.neg),
      Dec.val_add, Dec.val_neg, ← sub_eq_add_neg]
  · unfold storedBalanceVal
    rw [hsf]
    simp only [findAccount, withBalanceSet]
    rw [findAccount_setBalanceFirst_self, hfc2]
    simp only [Option.map_some', Option.some.injEq]
    rw [GetBalance_set_toString accC (accC.GetBalance.add a),
      Dec.val_add]

theorem post_conservation_witness :
    ∃ bd bc : ℚ,
      storedBalanceVal scenarioGateway.2 1 = some bd ∧
      storedBalanceVal scenarioGateway.2 0 = some bc ∧
      storedBalanceVal scenarioTopUp.1 1 = some (bd - (Dec.mk 1000 0).val) ∧
      storedBalanceVal scenarioTopUp.1 0 = some (bc + (Dec.mk 1000 0).val) ∧
      (bd - (Dec.mk 1000 0).val) + (bc + (Dec.mk 1000 0).val) = bd + bc :=
  post_conservation noFaults scenarioGateway.2 .TopUp ⟨1000, 0⟩ 1 0 "t1"
    (by decide) (by decide)

/-- C6: every successful posting appends exactly one journal entry,
whose type, amount, tranref, debit account and credit account fields
equal the corresponding call arguments (the amount both verbatim as
the printed string and by parsed value). -/
theorem post_creates_matching_entry (f : Faults) (st : LedgerState)
    (ty : TransactionType) (a : Dec) (dA cA : Nat) (ref : String)
    (h : (postDoubleEntry f st ty a dA cA ref).2 = none) :
    ∃ en : JournalEntry,
      (postDoubleEntry f st ty a dA cA ref).1.journals = st.journals ++ [en] ∧
      en.type = ty ∧ en.amount = a.toString ∧ en.GetAmount.val = a.val ∧
      en.tranRef = ref ∧ en.debitAccount = dA ∧ en.creditAccount = cA :=
  postDoubleEntry_entry h

theorem post_creates_matching_entry_witness :
    ∃ en : JournalEntry,
      scenarioTopUp.1.journals = scenarioGateway.2.journals ++ [en] ∧
      en.type = .TopUp ∧ en.amount = (Dec.mk 1000 0).toString ∧
      en.GetAmount.val = (Dec.mk 1000 0).val ∧
      en.tranRef = "t1" ∧ en.debitAccount = 1 ∧ en.creditAccount = 0 :=
  post_creates_matching_entry noFaults scenarioGateway.2 .TopUp ⟨1000, 0⟩ 1 0 "t1"
    (by decide)

/-- C7: the three domain wrappers are fixed specializations of
`postDoubleEntry` with the stated debit/credit role assignment, and on
success each posts one entry of the stated type debiting and crediting
the stated roles (TopUp: debit gateway, credit client;
PremiumPayment: debit client, credit underwriter; CommissionPayment:
debit underwriter, credit agent). -/
theorem wrappers_fix_roles (f : Faults) (st : LedgerState) (a : Dec) (ref : String)
    (x y : Nat) :
    ClientAccountTopUp f st x y a ref = postDoubleEntry f st .TopUp a y x ref ∧
    ClientPremiumPayment f st x y a ref = postDoubleEntry f st .PremiumPayment a x y ref ∧
    PostAgentCommission f st x y a ref = postDoubleEntry f st .CommissionPayment a x y ref ∧
    ((ClientAccountTopUp f st x y a ref).2 = none →
      ∃ en, (ClientAccountTopUp f st x y a ref).1.journals = st.journals ++ [en] ∧
        en.type = .TopUp ∧ en.debitAccount = y ∧ en.creditAccount = x) ∧
    ((ClientPremiumPayment f st x y a ref).2 = none →
      ∃ en, (ClientPremiumPayment f st x y a ref).1.journals = st.journals ++ [en] ∧
        en.type = .PremiumPayment ∧ en.debitAccount = x ∧ en.creditAccount = y) ∧
    ((PostAgentCommission f st x y a ref).2 = none →
      ∃ en, (PostAgentCommission f st x y a ref).1.journals = st.journals ++ [en] ∧
        en.type = .CommissionPayment ∧ en.debitAccount = x ∧ en.creditAccount = y) := by
  refine ⟨rfl, rfl, rfl, ?_, ?_, ?_⟩ <;>
  · intro h
    obtain ⟨en, hj, h1, _, _, _, h2, h3⟩ := postDoubleEntry_entry h
    exact ⟨en, hj, h1, h2, h3⟩

theorem wrappers_fix_roles_witness :
    ∃ en : JournalEntry,
      (ClientAccountTopUp noFaults scenarioGateway.2 0 1 ⟨1000, 0⟩ "t1").1.journals =
        scenarioGateway.2.journals ++ [en] ∧
      en.type = .TopUp ∧ en.debitAccount = 1 ∧ en.creditAccount = 0 :=
  (wrappers_fix_roles noFaults scenarioGateway.2 ⟨1000, 0⟩ "t1" 0 1).2.2.2.1 (by decide)

/-- Bridge between the code status test (`!IsZero`, a coefficient
test) and the value-level statement (`discrepancy != 0`). -/
theorem status_bridge (n : Nat) (dsc : Dec) :
    (if n = 0 then ReconciliationStatus.NoTransactions
     else if !dsc.isZero then .Discrepancy else .Reconciled) =
    (if n = 0 then .NoTransactions
     else if dsc.val ≠ 0 then .Discrepancy else .Reconciled) := by
  by_cases h0 : n = 0
  · simp [h0]
  · rw [if_neg h0, if_neg h0]
    by_cases hz : dsc.isZero
    · have hv := (Dec.isZero_iff dsc).mp hz
      simp [hz, hv]
    · have hv : dsc.val ≠ 0 := fun hv => hz ((Dec.isZero_iff dsc).mpr hv)
      simp [hz, hv]

/-- C8: a successful `ReconcileAccount` returns the account id and
type, the stored balance, the replayed computed balance, the entry
count, `discrepancy = computed - stored`, and the status
classification (`NoTransactions` on an empty leg list, `Discrepancy`
when the discrepancy is non-zero, `Reconciled` otherwise). -/
theorem reconcile_result_fields (oracle : Nat → Bool) (st : LedgerState) (aid : Nat)
    (r : ReconciliationResult) (h : ReconcileAccount oracle st aid = .ok r) :
    ∃ acc, findAccount st aid = some acc ∧
      r.accountID = aid ∧
      r.accountType = acc.type ∧
      r.storedBalance = acc.GetBalance ∧
      r.computedBalance = (legsFor st aid).foldl (replayStep aid) Dec.zeroVar ∧
      r.journalCount = (legsFor st aid).length ∧
      r.discrepancy = r.computedBalance.sub r.storedBalance ∧
      r.discrepancy.val = r.computedBalance.val - r.storedBalance.val ∧
      r.status = (if (legsFor st aid).length = 0 then .NoTransactions
        else if r.discrepancy.val ≠ 0 then .Discrepancy else .Reconciled) := by
  unfold ReconcileAccount GetAccountByID at h
  cases hf : findAccount st aid with
  | none =>
    rw [hf] at h
    simp [Bind.bind, Except.bind] at h
  | some acc =>
    rw [hf] at h
    simp only [Bind.bind, Except.bind] at h
    by_cases ho : oracle aid
    · rw [if_pos ho] at h
      simp [throw, throwThe, MonadExceptOf.throw] at h
    · rw [if_neg ho] at h
      simp only [pure, Except.pure, Except.ok.injEq] at h
      subst h
      exact ⟨acc, rfl, rfl, rfl, rfl, rfl, rfl, rfl, Dec.val_sub _ _, status_bridge _ _⟩

theorem reconcile_result_fields_witness :
    ∃ acc, findAccount scenarioTopUp.1 0 = some acc ∧
      (⟨0, .ClientInsurance, ⟨1000, 0⟩, ⟨-1000, 0⟩, ⟨-2000, 0⟩, .Discrepancy, 1⟩ :
        ReconciliationResult).accountID = 0 ∧
      (⟨0, .ClientInsurance, ⟨1000, 0⟩, ⟨-1000, 0⟩, ⟨-2000, 0⟩, .Discrepancy, 1⟩ :
        ReconciliationResult).accountType = acc.type ∧
      (⟨0, .ClientInsurance, ⟨1000, 0⟩, ⟨-1000, 0⟩, ⟨-2000, 0⟩, .Discrepancy, 1⟩ :
        ReconciliationResult).storedBalance = acc.GetBalance ∧
      (⟨0, .ClientInsurance, ⟨1000, 0⟩, ⟨-1000, 0⟩, ⟨-2000, 0⟩, .Discrepancy, 1⟩ :
        ReconciliationResult).computedBalance =
        (legsFor scenarioTopUp.1 0).foldl (replayStep 0) Dec.zeroVar ∧
      (⟨0, .ClientInsurance, ⟨1000, 0⟩, ⟨-1000, 0⟩, ⟨-2000, 0⟩, .Discrepancy, 1⟩ :
        ReconciliationResult).journalCount = (legsFor scenarioTopUp.1 0).length ∧
      (⟨0, .ClientInsurance, ⟨1000, 0⟩, ⟨-1000, 0⟩, ⟨-2000, 0⟩, .Discrepancy, 1⟩ :
        ReconciliationResult).discrepancy =
        Dec.sub (⟨0, .ClientInsurance, ⟨1000, 0⟩, ⟨-1000, 0⟩, ⟨-2000, 0⟩, .Discrepancy, 1⟩ :
          ReconciliationResult).computedBalance
          (⟨0, .ClientInsurance, ⟨1000, 0⟩, ⟨-1000, 0⟩, ⟨-2000, 0⟩, .Discrepancy, 1⟩ :
          ReconciliationResult).storedBalance ∧
      (⟨0, .ClientInsurance, ⟨1000, 0⟩, ⟨-1000, 0⟩, ⟨-2000, 0⟩, .Discrepancy, 1⟩ :
        ReconciliationResult).discrepancy.val =
        (⟨0, .ClientInsurance, ⟨1000, 0⟩, ⟨-1000, 0⟩, ⟨-2000, 0⟩, .Discrepancy, 1⟩ :
          ReconciliationResult).computedBalance.val -
        (⟨0, .ClientInsurance, ⟨1000, 0⟩, ⟨-1000, 0⟩, ⟨-2000, 0⟩, .Discrepancy, 1⟩ :
          ReconciliationResult).storedBalance.val ∧
      (⟨0, .ClientInsurance, ⟨1000, 0⟩, ⟨-1000, 0⟩, ⟨-2000, 0⟩, .Discrepancy, 1⟩ :
        ReconciliationResult).status =
        (if (legsFor scenarioTopUp.1 0).length = 0 then .NoTransactions
          else if (⟨0, .ClientInsurance, ⟨1000, 0⟩, ⟨-1000, 0⟩, ⟨-2000, 0⟩, .Discrepancy, 1⟩ :
            ReconciliationResult).discrepancy.val ≠ 0 then .Discrepancy else .Reconciled) :=
  reconcile_result_fields (fun _ => false) scenarioTopUp.1 0
    ⟨0, .ClientInsurance, ⟨1000, 0⟩, ⟨-1000, 0⟩, ⟨-2000, 0⟩, .Discrepancy, 1⟩ (by decide)

/-- Per-account report loop invariant: a successful loop returns one
result per account, in order. -/
theorem reportLoop_ok_spec (oracle : Nat → Bool) (st : LedgerState) :
    ∀ (as : List Account) (l : List ReconciliationResult),
      reportLoop oracle st as = .ok l →
      l.length = as.length ∧
      ∀ i, i < as.length → ∃ acc r, as[i]? = some acc ∧
        ReconcileAccount oracle st acc.id = .ok r ∧ l[i]? = some r := by
  intro as
  induction as with
  | nil =>
    intro l h
    simp only [reportLoop, Except.ok.injEq] at h
    subst h
    exact ⟨rfl, fun i hi => absurd hi (by simp)⟩
  | cons a rest ih =>
    intro l h
    unfold reportLoop at h
    cases hr : ReconcileAccount oracle st a.id with
    | error e =>
      rw [hr] at h
      simp [Bind.bind, Except.bind] at h
    | ok r =>
      rw [hr] at h
      simp only [Bind.bind, Except.bind] at h
      cases hrest : reportLoop oracle st rest with
      | error e =>
        rw [hrest] at h
        simp at h
      | ok rs =>
        rw [hrest] at h
        simp only [pure, Except.pure, Except.ok.injEq] at h
        subst h
        obtain ⟨hlen, hidx⟩ := ih rs hrest
        refine ⟨by simp [hlen], ?_⟩
        intro i hi
        cases i with
        | zero => exact ⟨a, r, by simp, hr, by simp⟩
        | succ j =>
          obtain ⟨acc, r2, h1, h2, h3⟩ := hidx j (by simpa using hi)
          exact ⟨acc, r2, by simpa using h1, h2, by simpa using h3⟩

/-- Per-account report loop invariant: a failing account makes the
whole loop fail, with a failing account error. -/
theorem reportLoop_error_spec (oracle : Nat → Bool) (st : LedgerState) :
    ∀ (as : List Account) (a : Account) (e : LedgerError),
      a ∈ as → ReconcileAccount oracle st a.id = .error e →
      ∃ e2 a2, a2 ∈ as ∧ ReconcileAccount oracle st a2.id = .error e2 ∧
        reportLoop oracle st as = .error e2 := by
  intro as
  induction as with
  | nil =>
    intro a e h
    simp at h
  | cons hd rest ih =>
    intro a e hmem herr
    cases hr : ReconcileAccount oracle st hd.id with
    | error e0 =>
      refine ⟨e0, hd, List.mem_cons_self _ _, hr, ?_⟩
      unfold reportLoop
      rw [hr]
      rfl
    | ok r =>
      rcases List.mem_cons.mp hmem with rfl | hmem2
      · rw [hr] at herr
        simp at herr
      · obtain ⟨e2, a2, hm2, he2, hloop⟩ := ih a e hmem2 herr
        refine ⟨e2, a2, List.mem_cons_of_mem _ hm2, he2, ?_⟩
        unfold reportLoop
        rw [hr]
        simp only [Bind.bind, Except.bind]
        rw [hloop]

/-- C9: `GetReconciliationReport` reconciles every account and returns
one result per account in store order; if reconciling any single
account fails, the whole call fails with a failing account error and
returns no partial list. -/
theorem report_fail_fast (oracle : Nat → Bool) (st : LedgerState) :
    (∀ l, GetReconciliationReport oracle st = .ok l →
      l.length = st.accounts.length ∧
      ∀ i, i < st.accounts.length → ∃ acc r, st.accounts[i]? = some acc ∧
        ReconcileAccount oracle st acc.id = .ok r ∧ l[i]? = some r) ∧
    (∀ a e, a ∈ st.accounts → ReconcileAccount oracle st a.id = .error e →
      ∃ e2 a2, a2 ∈ st.accounts ∧ ReconcileAccount oracle st a2.id = .error e2 ∧
        GetReconciliationReport oracle st = .error e2) := by
  constructor
  · intro l h
    exact reportLoop_ok_spec oracle st st.accounts l h
  · intro a e hm he
    exact reportLoop_error_spec oracle st st.accounts a e hm he

theorem report_fail_fast_witness :
    ((GetReconciliationReport (fun _ => false) wSt =
        .ok [⟨0, .ClientInsurance, ⟨5, 0⟩, ⟨0, 0⟩, ⟨-5, 0⟩, .NoTransactions, 0⟩]) ∧
      ([(⟨0, .ClientInsurance, ⟨5, 0⟩, ⟨0, 0⟩, ⟨-5, 0⟩, .NoTransactions, 0⟩ :
        ReconciliationResult)].length = wSt.accounts.length)) ∧
    ∃ e2 a2, a2 ∈ wSt.accounts ∧
      ReconcileAccount (fun _ => true) wSt a2.id = .error e2 ∧
      GetReconciliationReport (fun _ => true) wSt = .error e2 :=
  ⟨⟨by decide, ((report_fail_fast (fun _ => false) wSt).1 _ (by decide)).1⟩,
    (report_fail_fast (fun _ => true) wSt).2 ⟨0, .ClientInsurance, "5", "A"⟩
      .storeFailure (by decide) (by decide)⟩

theorem GetAccountByID_found {st : LedgerState} {aid : Nat} {acc : Account}
    (hf : findAccount st aid = some acc) : GetAccountByID st aid = .ok acc := by
  unfold GetAccountByID
  rw [hf]

/-- C10: when a stored balance or amount string fails decimal parsing,
`GetBalance`/`GetAmount` discard the error and return the zero-value
decimal, so `incrementBalance` (posting) treats the stored balance as
`0 + delta` and `ReconcileAccount` uses `0` as the stored balance —
neither fails. -/
theorem malformed_decimal_reads_as_zero :
    (∀ a : Account, newFromString a.balance = none → a.GetBalance = Dec.zeroVar) ∧
    (∀ j : JournalEntry, newFromString j.amount = none → j.GetAmount = Dec.zeroVar) ∧
    (∀ (st : LedgerState) (aid : Nat) (acc : Account) (delta : Dec),
      findAccount st aid = some acc → newFromString acc.balance = none →
      incrementBalance false st aid delta =
        .ok (withBalanceSet st aid ((Dec.zeroVar.add delta).toString))) ∧
    (∀ (oracle : Nat → Bool) (st : LedgerState) (aid : Nat) (acc : Account),
      findAccount st aid = some acc → newFromString acc.balance = none →
      oracle aid = false →
      ∃ r, ReconcileAccount oracle st aid = .ok r ∧
        r.storedBalance = Dec.zeroVar) := by
  have hgb : ∀ a : Account, newFromString a.balance = none →
      a.GetBalance = Dec.zeroVar := by
    intro a ha
    unfold Account.GetBalance
    rw [ha]
    rfl
  refine ⟨hgb, ?_, ?_, ?_⟩
  · intro j hj
    unfold JournalEntry.GetAmount
    rw [hj]
    rfl
  · intro st aid acc delta hf hb
    unfold incrementBalance
    rw [if_neg (by simp : ¬((false : Bool) = true)), hf]
    show Except.ok
      { st with accounts :=
          setBalanceFirst st.accounts aid ((acc.GetBalance.add delta).toString) } = _
    rw [hgb acc hb]
    rfl
  · intro oracle st aid acc hf hb ho
    have hrec : ReconcileAccount oracle st aid = .ok
        { accountID := aid, accountType := acc.type,
          storedBalance := acc.GetBalance,
          computedBalance := (legsFor st aid).foldl (replayStep aid) Dec.zeroVar,
          discrepancy :=
            ((legsFor st aid).foldl (replayStep aid) Dec.zeroVar).sub acc.GetBalance,
          status :=
            (if (legsFor st aid).length = 0 then .NoTransactions
             else if !(((legsFor st aid).foldl (replayStep aid) Dec.zeroVar).sub
                 acc.GetBalance).isZero then .Discrepancy
             else .Reconciled),
          journalCount := (legsFor st aid).length } := by
      unfold ReconcileAccount
      rw [GetAccountByID_found hf]
      simp only [Bind.bind, Except.bind]
      rw [if_neg (by simp [ho])]
      rfl
    exact ⟨_, hrec, hgb acc hb⟩

/-- An account and an entry with malformed decimal text. -/
def badAcc : Account := ⟨0, .ClientInsurance, "notanumber", "B"⟩

def badEntry : JournalEntry := ⟨0, 0, .TopUp, "oops", "t", 0, 0⟩

def badSt : LedgerState := ⟨[badAcc], [], 1⟩

theorem malformed_decimal_reads_as_zero_witness :
    badAcc.GetBalance = Dec.zeroVar ∧
    badEntry.GetAmount = Dec.zeroVar ∧
    incrementBalance false badSt 0 ⟨3, 0⟩ =
      .ok (withBalanceSet badSt 0 ((Dec.zeroVar.add ⟨3, 0⟩).toString)) ∧
    ∃ r, ReconcileAccount (fun _ => false) badSt 0 = .ok r ∧
      r.storedBalance = Dec.zeroVar :=
  ⟨malformed_decimal_reads_as_zero.1 badAcc (by decide),
    malformed_decimal_reads_as_zero.2.1 badEntry (by decide),
    malformed_decimal_reads_as_zero.2.2.1 badSt 0 badAcc ⟨3, 0⟩ (by decide) (by decide),
    malformed_decimal_reads_as_zero.2.2.2 (fun _ => false) badSt 0 badAcc
      (by decide) (by decide) rfl⟩

end GoLedger
